import Mathlib

/-!
Verification of the trello-cli request/response core against its
natural-language specification.

The Go sources are shallowly embedded: `url.Values` becomes an association
list with Go-map semantics (`Set` replaces, `Add` appends, keys are unique
by construction), HTTP execution becomes a function from the observable
wire outcome to `Except`, and the Go error values returned by the client
become a closed inductive (`GoError`) whose constructors correspond to the
construction sites in the source.
-/

namespace TrelloCLI

/-- Model of Go `net/url.Values` (a `map[string][]string`): an association
list from keys to value lists.  All values in the program are built from
the empty map via `setVal` / `addVal`, which keep keys unique, matching a
Go map.  Go map iteration order is unspecified; every property proved
below is per-key and independent of entry order. -/
abbrev Values := List (String × List String)

/-- Go map read `v[key]`: the value list for a key, `[]` when absent. -/
def getVals : Values → String → List String
  | [], _ => []
  | (k1, vs) :: rest, k => if k1 = k then vs else getVals rest k

/-- Go `url.Values.Set`: replaces all values for the key with the single
given value. -/
def setVal : Values → String → String → Values
  | [], k, v => [(k, [v])]
  | (k1, vs) :: rest, k, v =>
    if k1 = k then (k, [v]) :: rest else (k1, vs) :: setVal rest k v

/-- Go `url.Values.Add`: appends the value to the key's value list. -/
def addVal : Values → String → String → Values
  | [], k, v => [(k, [v])]
  | (k1, vs) :: rest, k, v =>
    if k1 = k then (k1, vs ++ [v]) :: rest else (k1, vs) :: addVal rest k v

/-- Whether the map contains the key at all (Go: `_, ok := v[key]`). -/
def hasKey : Values → String → Bool
  | [], _ => false
  | (k1, _) :: rest, k => if k1 = k then true else hasKey rest k

/-- The keys of a `Values` map, in entry order. -/
def keysOf : Values → List String
  | [] => []
  | (k, _) :: rest => k :: keysOf rest

/-- Keys of a `Values` map are pairwise distinct (true of every Go map,
and preserved by `setVal` / `addVal`). -/
def WFValues (vs : Values) : Prop := (keysOf vs).Nodup

/-- The inner loop `for _, v := range vs { q.Set(k, v) }` of `buildURL`,
`CreateCard` and `CreateBoard`. -/
def setAll (q : Values) (k : String) (vals : List String) : Values :=
  vals.foldl (fun a v => setVal a k v) q

/-- The merge loop `for k, vs := range params { for _, v := range vs
{ q.Set(k, v) } }` shared by `buildURL`, `CreateBoard` and `CreateCard`. -/
def mergeSet (q params : Values) : Values :=
  params.foldl (fun a p => setAll a p.1 p.2) q

/-! Basic lemmas about the `url.Values` model. -/

theorem getVals_setVal_self (vs : Values) (k v : String) :
    getVals (setVal vs k v) k = [v] := by
  induction vs with
  | nil => simp [setVal, getVals]
  | cons hd tl ih =>
    obtain ⟨k1, vs1⟩ := hd
    by_cases h : k1 = k
    · simp [setVal, h, getVals]
    · simp [setVal, h, getVals, ih]

theorem getVals_setVal_ne (vs : Values) (k1 k v : String) (h : k1 ≠ k) :
    getVals (setVal vs k1 v) k = getVals vs k := by
  induction vs with
  | nil => simp [setVal, getVals, h]
  | cons hd tl ih =>
    obtain ⟨k2, vs2⟩ := hd
    by_cases h2 : k2 = k1
    · subst h2
      simp [setVal, getVals, h]
    · by_cases h3 : k2 = k
      · simp [setVal, h2, getVals, h3, Ne.symm h]
      · simp [setVal, h2, getVals, h3, ih]

theorem getVals_addVal_self (vs : Values) (k v : String) :
    getVals (addVal vs k v) k = getVals vs k ++ [v] := by
  induction vs with
  | nil => simp [addVal, getVals]
  | cons hd tl ih =>
    obtain ⟨k1, vs1⟩ := hd
    by_cases h : k1 = k
    · simp [addVal, h, getVals]
    · simp [addVal, h, getVals, ih]

theorem getVals_addVal_ne (vs : Values) (k1 k v : String) (h : k1 ≠ k) :
    getVals (addVal vs k1 v) k = getVals vs k := by
  induction vs with
  | nil => simp [addVal, getVals, h]
  | cons hd tl ih =>
    obtain ⟨k2, vs2⟩ := hd
    by_cases h2 : k2 = k1
    · subst h2
      simp [addVal, getVals, h]
    · by_cases h3 : k2 = k
      · simp [addVal, h2, getVals, h3, Ne.symm h]
      · simp [addVal, h2, getVals, h3, ih]

theorem setAll_nil (q : Values) (k : String) : setAll q k [] = q := rfl

theorem getVals_setAll_ne (q : Values) (k1 k : String) (vals : List String)
    (h : k1 ≠ k) : getVals (setAll q k1 vals) k = getVals q k := by
  induction vals generalizing q with
  | nil => simp [setAll]
  | cons v vs ih =>
    simpa [setAll] using (ih (setVal q k1 v)).trans (getVals_setVal_ne q k1 k v h)

theorem getVals_setAll_self (q : Values) (k v : String) (vs : List String) :
    getVals (setAll q k (v :: vs)) k = [(v :: vs).getLast (List.cons_ne_nil v vs)] := by
  induction vs generalizing q v with
  | nil => simp [setAll, getVals_setVal_self]
  | cons v2 vs2 ih =>
    have : setAll q k (v :: v2 :: vs2) = setAll (setVal q k v) k (v2 :: vs2) := rfl
    rw [this, ih]
    simp

theorem getVals_eq_nil_of_not_hasKey (vs : Values) (k : String)
    (h : hasKey vs k = false) : getVals vs k = [] := by
  induction vs with
  | nil => simp [getVals]
  | cons hd tl ih =>
    obtain ⟨k1, vs1⟩ := hd
    by_cases h2 : k1 = k
    · simp [hasKey, h2] at h
    · simp [hasKey, h2] at h
      simp [getVals, h2, ih h]

theorem hasKey_setVal (vs : Values) (k1 k v : String) :
    hasKey (setVal vs k1 v) k = (hasKey vs k || decide (k1 = k)) := by
  induction vs with
  | nil => by_cases h : k1 = k <;> simp [setVal, hasKey, h]
  | cons hd tl ih =>
    obtain ⟨k2, vs2⟩ := hd
    by_cases h : k2 = k1
    · subst h
      by_cases h2 : k2 = k <;> simp [setVal, hasKey, h2]
    · by_cases h2 : k2 = k
      · subst h2
        simp [setVal, h, hasKey]
      · simp [setVal, h, hasKey, h2, ih]

theorem hasKey_setAll (q : Values) (k1 k : String) (vals : List String) :
    hasKey (setAll q k1 vals) k =
      (hasKey q k || (decide (k1 = k) && !vals.isEmpty)) := by
  induction vals generalizing q with
  | nil => simp [setAll]
  | cons v vs ih =>
    have step : setAll q k1 (v :: vs) = setAll (setVal q k1 v) k1 vs := rfl
    rw [step, ih, hasKey_setVal]
    cases vs <;> by_cases h : k1 = k <;> simp [h]

theorem hasKey_mergeSet (q ps : Values) (k : String)
    (hq : hasKey q k = false) (hp : hasKey ps k = false) :
    hasKey (mergeSet q ps) k = false := by
  induction ps generalizing q with
  | nil => simpa [mergeSet] using hq
  | cons hd tl ih =>
    obtain ⟨k1, vs1⟩ := hd
    by_cases h : k1 = k
    · simp [hasKey, h] at hp
    · simp [hasKey, h] at hp
      have step : mergeSet q ((k1, vs1) :: tl) = mergeSet (setAll q k1 vs1) tl := rfl
      rw [step]
      refine ih _ ?_ hp
      rw [hasKey_setAll, hq]
      simp [h]

theorem getVals_mergeSet_of_not_hasKey (q ps : Values) (k : String)
    (hp : hasKey ps k = false) :
    getVals (mergeSet q ps) k = getVals q k := by
  induction ps generalizing q with
  | nil => simp [mergeSet]
  | cons hd tl ih =>
    obtain ⟨k1, vs1⟩ := hd
    by_cases h : k1 = k
    · simp [hasKey, h] at hp
    · simp [hasKey, h] at hp
      have step : mergeSet q ((k1, vs1) :: tl) = mergeSet (setAll q k1 vs1) tl := rfl
      rw [step, ih _ hp]
      exact getVals_setAll_ne q k1 k vs1 h

theorem not_hasKey_of_not_mem (tl : Values) (k : String)
    (h : k ∉ keysOf tl) : hasKey tl k = false := by
  induction tl with
  | nil => simp [hasKey]
  | cons hd tl2 ih =>
    obtain ⟨k1, vs1⟩ := hd
    simp [keysOf] at h
    simp [hasKey, Ne.symm h.1, ih h.2]

/-- The central merge property: under distinct keys, merging `ps` into `q`
with repeated `Set` leaves, for each key, the last value contributed by
`ps` when there is one, and the value from `q` otherwise. -/
theorem getVals_mergeSet (q ps : Values) (k : String) (hwf : WFValues ps) :
    getVals (mergeSet q ps) k =
      match getVals ps k with
      | [] => getVals q k
      | v :: vs => [(v :: vs).getLast (List.cons_ne_nil v vs)] := by
  induction ps generalizing q with
  | nil => simp [mergeSet, getVals]
  | cons hd tl ih =>
    obtain ⟨k1, vs1⟩ := hd
    have step : mergeSet q ((k1, vs1) :: tl) = mergeSet (setAll q k1 vs1) tl := rfl
    unfold WFValues at hwf
    simp [keysOf] at hwf
    by_cases h : k1 = k
    · subst h
      have htl : hasKey tl k1 = false := not_hasKey_of_not_mem tl k1 hwf.1
      rw [step, getVals_mergeSet_of_not_hasKey _ _ _ htl]
      cases vs1 with
      | nil => simp [getVals, setAll]
      | cons v vs => simp [getVals, getVals_setAll_self]
    · rw [step, ih _ hwf.2]
      simp [getVals, h, getVals_setAll_ne _ _ _ _ h]

/-- Every value list in the result of a merge has at most one element,
provided that was true of the base map (repeated `q.Set(k, v)` keeps a
single value per key).  Needs no key-distinctness hypothesis. -/
theorem getVals_mergeSet_length_le_one (q ps : Values)
    (hq : ∀ k, (getVals q k).length ≤ 1) (k : String) :
    (getVals (mergeSet q ps) k).length ≤ 1 := by
  induction ps generalizing q with
  | nil => simpa [mergeSet] using hq k
  | cons hd tl ih =>
    obtain ⟨k1, vs1⟩ := hd
    have step : mergeSet q ((k1, vs1) :: tl) = mergeSet (setAll q k1 vs1) tl := rfl
    rw [step]
    refine ih _ (fun k2 => ?_)
    by_cases h : k1 = k2
    · subst h
      cases vs1 with
      | nil => simpa [setAll] using hq k1
      | cons v vs => simp [getVals_setAll_self]
    · rw [getVals_setAll_ne _ _ _ _ h]
      exact hq k2

theorem mem_keysOf_setVal (vs : Values) (k v k2 : String)
    (h : k2 ∈ keysOf (setVal vs k v)) : k2 ∈ keysOf vs ∨ k2 = k := by
  induction vs with
  | nil =>
    simp [setVal, keysOf] at h
    tauto
  | cons hd tl ih =>
    obtain ⟨k1, vs1⟩ := hd
    by_cases h2 : k1 = k
    · subst h2
      simp [setVal, keysOf] at h ⊢
      tauto
    · simp [setVal, h2, keysOf] at h ⊢
      rcases h with h | h
      · tauto
      · rcases ih h with h3 | h3 <;> tauto

theorem mem_keysOf_addVal (vs : Values) (k v k2 : String)
    (h : k2 ∈ keysOf (addVal vs k v)) : k2 ∈ keysOf vs ∨ k2 = k := by
  induction vs with
  | nil =>
    simp [addVal, keysOf] at h
    tauto
  | cons hd tl ih =>
    obtain ⟨k1, vs1⟩ := hd
    by_cases h2 : k1 = k
    · subst h2
      simp [addVal, keysOf] at h ⊢
      tauto
    · simp [addVal, h2, keysOf] at h ⊢
      rcases h with h | h
      · tauto
      · rcases ih h with h3 | h3 <;> tauto

theorem wf_setVal (vs : Values) (k v : String) (h : WFValues vs) :
    WFValues (setVal vs k v) := by
  induction vs with
  | nil => simp [setVal, WFValues, keysOf]
  | cons hd tl ih =>
    obtain ⟨k1, vs1⟩ := hd
    unfold WFValues at h ⊢
    simp [keysOf] at h
    by_cases h2 : k1 = k
    · subst h2
      simp [setVal, keysOf]
      exact ⟨h.1, h.2⟩
    · simp [setVal, h2, keysOf]
      refine ⟨fun hmem => ?_, ih h.2⟩
      rcases mem_keysOf_setVal tl k v k1 hmem with h3 | h3
      · exact h.1 h3
      · exact h2 h3

theorem wf_addVal (vs : Values) (k v : String) (h : WFValues vs) :
    WFValues (addVal vs k v) := by
  induction vs with
  | nil => simp [addVal, WFValues, keysOf]
  | cons hd tl ih =>
    obtain ⟨k1, vs1⟩ := hd
    unfold WFValues at h ⊢
    simp [keysOf] at h
    by_cases h2 : k1 = k
    · subst h2
      simp [addVal, keysOf]
      exact ⟨h.1, h.2⟩
    · simp [addVal, h2, keysOf]
      refine ⟨fun hmem => ?_, ih h.2⟩
      rcases mem_keysOf_addVal tl k v k1 hmem with h3 | h3
      · exact h.1 h3
      · exact h2 h3

theorem wf_nil : WFValues [] := by simp [WFValues, keysOf]


/-! Request Engine: `internal/api/client.go`. -/

/-- Go `api.Client` (the `httpClient` with its fixed 30s timeout is part
of the execution environment, observable only through `HTTPOutcome`). -/
structure Client where
  apiKey : String
  apiToken : String

/-- Go `Client.authParams`: the base auth query params added to every
request. -/
def authParams (c : Client) : Values :=
  setVal (setVal [] "key" c.apiKey) "token" c.apiToken

/-- Query mapping assembled by Go `Client.buildURL`: auth params first,
then every caller param written over them with `Set` (the nested
`for k, vs / for _, v / q.Set(k, v)` loops).  The fixed base address,
path concatenation and percent-encoding of `q.Encode()` are not modelled;
all claims concern the query mapping itself. -/
def buildURLQuery (c : Client) (params : Values) : Values :=
  mergeSet (authParams c) params

/-- Parameter assembly of Go `Client.CreateCard`: required fields first,
then the generic passthrough bag merged with `Set`. -/
def createCardParams (idList name desc : String) (params : Values) : Values :=
  let p := setVal [] "idList" idList
  let p := setVal p "name" name
  let p := if desc ≠ "" then setVal p "desc" desc else p
  mergeSet p params

/-- Parameter assembly of Go `Client.CreateBoard`: name always, desc and
idOrganization only when non-empty, then the prefs bag merged with `Set`. -/
def createBoardParams (name desc idOrganization : String) (prefs : Values) : Values :=
  let params := setVal [] "name" name
  let params := if desc ≠ "" then setVal params "desc" desc else params
  let params :=
    if idOrganization ≠ "" then setVal params "idOrganization" idOrganization
    else params
  mergeSet params prefs

/-- Parameter assembly of Go `Client.Search`: query, then either one
`Add` per model type or the "all" default, then the three limits when
`limit > 0`, then the two fixed field lists.  `limit` is a Go `int`. -/
def searchParams (query : String) (modelTypes : List String) (limit : Int) : Values :=
  let params := setVal [] "query" query
  let params :=
    if modelTypes.length > 0 then
      modelTypes.foldl (fun a t => addVal a "modelTypes" t) params
    else
      setVal params "modelTypes" "all"
  let params :=
    if limit > 0 then
      setVal (setVal (setVal params "cards_limit" (toString limit))
        "boards_limit" (toString limit)) "members_limit" (toString limit)
    else params
  let params :=
    setVal params "card_fields" "id,name,idBoard,idList,shortUrl,labels,due,dueComplete"
  setVal params "board_fields" "id,name,shortUrl,closed"

/-- The (key, value) pairs read by the loop of `cmd.buildParams`
(`for i := 0; i+1 < len(pairs); i += 2`): a trailing odd element is
ignored. -/
def pairsOf : List String → List (String × String)
  | k :: v :: rest => (k, v) :: pairsOf rest
  | _ => []

/-- Loop body of Go `cmd.buildParams`: pairs whose value is empty are
skipped, the rest are `Set`. -/
def buildParamsAux : Values → List String → Values
  | p, k :: v :: rest => buildParamsAux (if v ≠ "" then setVal p k v else p) rest
  | p, _ => p

/-- Go `cmd.buildParams`: a `url.Values` from alternating key/value
strings, skipping pairs with an empty value. -/
def buildParams (pairs : List String) : Values :=
  buildParamsAux [] pairs

/-- The closed set of error values the client layer can return, one
constructor per construction site in `client.go` (plus `errorString` for
plain `fmt.Errorf` validation errors raised in the command layer). -/
inductive GoError where
  | transport (msg : String)
  | readBody (msg : String)
  | trelloError (statusCode : Nat) (message : String)
  | decodeError (msg : String)
  | errorString (msg : String)
  deriving DecidableEq, Repr

/-- The Go `error.Error()` text of each error value.  For `TrelloError`
this is the stored `Message` field (`types.go`); the wrapped transport
and read errors prepend their `fmt.Errorf` prefixes. -/
def GoError.errorMessage : GoError → String
  | .transport m => "request failed: " ++ m
  | .readBody m => "reading response: " ++ m
  | .trelloError _ m => m
  | .decodeError m => m
  | .errorString m => m

/-- The observable outcome of `httpClient.Do` followed by `io.ReadAll`:
a network/timeout failure before any response, a failure while reading
the body, or a complete response with status code and full body text. -/
inductive HTTPOutcome where
  | netError (msg : String)
  | readError (status : Nat) (msg : String)
  | response (status : Nat) (body : String)

/-- Go `Client.doRequest` as a function of the wire outcome: transport
errors are wrapped, any status `>= 400` becomes a `TrelloError` carrying
the status code and `"HTTP <code>: <body>"`, and success returns the raw
body bytes. -/
def doRequest : HTTPOutcome → Except GoError String
  | .netError m => .error (.transport m)
  | .readError _ m => .error (.readBody m)
  | .response status body =>
    if 400 ≤ status then
      .error (.trelloError status ("HTTP " ++ toString status ++ ": " ++ body))
    else
      .ok body

/-- Go `Client.Get`: builds the request for `buildURLQuery c params` at
`path` and executes it; the classification of the outcome is exactly
`doRequest`. -/
def clientGet (c : Client) (path : String) (params : Values)
    (wire : HTTPOutcome) : Except GoError String :=
  doRequest wire

/-- Go `Client.Post`: the payload is always `nil` at every call site in
the repository, and `json.Marshal(nil)` cannot fail, so execution again
reduces to `doRequest` on the wire outcome. -/
def clientPost (c : Client) (path : String) (params : Values)
    (wire : HTTPOutcome) : Except GoError String :=
  doRequest wire

/-- Go `Client.Put` (same remark as `clientPost`). -/
def clientPut (c : Client) (path : String) (params : Values)
    (wire : HTTPOutcome) : Except GoError String :=
  doRequest wire

/-- Go `Client.Delete`. -/
def clientDelete (c : Client) (path : String) (params : Values)
    (wire : HTTPOutcome) : Except GoError String :=
  doRequest wire

/-! Presentation layer: output-mode decision (`internal/output`). -/

/-- The two-valued output mode of spec section 4.2, with the pretty
sub-choice for structured output. -/
inductive OutputMode where
  | structured (pretty : Bool)
  | display
  deriving DecidableEq, Repr

/-- Go `output.IsJSON`: true when stdout is not an interactive terminal
(the `isatty.IsTerminal || isatty.IsCygwinTerminal` check is abstracted
as `interactive`), or when the json or pretty flag is set. -/
def IsJSON (interactive json pretty : Bool) : Bool :=
  if !interactive then true
  else json || pretty

/-- Go `output.IsPretty`: mirrors the source control flow — when the
pretty flag is unset, returns true if the json flag is set at an
interactive terminal, else falls through to returning the pretty flag. -/
def IsPretty (interactive json pretty : Bool) : Bool :=
  if !pretty then
    if json && interactive then true
    else pretty
  else pretty

/-- The mode every command handler effectively follows:
`if output.IsJSON(cmd) { output.PrintJSON(v, output.IsPretty(cmd)) }
else { display rendering }`. -/
def resolveOutputMode (interactive json pretty : Bool) : OutputMode :=
  if IsJSON interactive json pretty then
    .structured (IsPretty interactive json pretty)
  else .display

/-- Go `output.Truncate`: shortens a string to `maxLen` runes (Lean
`Char` = Go rune), appending the single-rune ellipsis when truncated.
`maxLen` is a Go `int`; the slice `runes[:maxLen-1]` panics when
`maxLen - 1 < 0`, modelled by `none`. -/
def Truncate (s : String) (maxLen : Int) : Option String :=
  if ((s.toList).length : Int) ≤ maxLen then some s
  else if maxLen - 1 < 0 then none
  else some (String.mk ((s.toList).take (maxLen - 1).toNat) ++ "…")

/-- Go `output.FormatBool`. -/
def FormatBool (b : Bool) : String :=
  if b then "yes" else "no"

/-- Go `output.FormatLabels`. -/
def FormatLabels (labels : List String) : String :=
  if labels.length = 0 then "-"
  else String.intercalate ", " labels

/-- C1: for every HTTP response with status code >= 400, the execution
path (doRequest, reached from Get/Post/Put/Delete) returns an API
Failure (`TrelloError`) carrying that exact status code and a message
ending in the verbatim response body, and never a Decode Failure. -/
theorem c1_api_failure_status_and_body (c : Client) (path : String)
    (params : Values) (status : Nat) (body : String) (h : 400 ≤ status) :
    (clientGet c path params (.response status body) =
        .error (.trelloError status ("HTTP " ++ toString status ++ ": " ++ body))
      ∧ clientPost c path params (.response status body) =
        .error (.trelloError status ("HTTP " ++ toString status ++ ": " ++ body))
      ∧ clientPut c path params (.response status body) =
        .error (.trelloError status ("HTTP " ++ toString status ++ ": " ++ body))
      ∧ clientDelete c path params (.response status body) =
        .error (.trelloError status ("HTTP " ++ toString status ++ ": " ++ body)))
    ∧ (∀ m, clientGet c path params (.response status body) ≠
        .error (.decodeError m))
    ∧ (∃ pre, "HTTP " ++ toString status ++ ": " ++ body = pre ++ body) := by
  refine ⟨?_, ?_, ?_⟩
  · simp [clientGet, clientPost, clientPut, clientDelete, doRequest, h]
  · intro m
    simp [clientGet, doRequest, h]
  · exact ⟨"HTTP " ++ toString status ++ ": ",
      by rw [String.append_assoc, String.append_assoc]⟩

/-- Witness for C1 at a concrete 404 response. -/
theorem c1_witness :
    clientGet ⟨"k", "t"⟩ "/boards/abc" [] (.response 404 "not found") =
      .error (.trelloError 404 ("HTTP " ++ toString 404 ++ ": " ++ "not found")) :=
  (c1_api_failure_status_and_body ⟨"k", "t"⟩ "/boards/abc" [] 404 "not found"
    (by decide)).1.1

/-- C2: the output-mode decision satisfies the four-case table of the
spec, and IsJSON / IsPretty have the stated boolean characterisations. -/
theorem c2_output_mode_table :
    resolveOutputMode false false false = .structured false
    ∧ resolveOutputMode true false false = .display
    ∧ resolveOutputMode true true false = .structured true
    ∧ resolveOutputMode true false true = .structured true
    ∧ ∀ i j p : Bool,
        IsJSON i j p = (!i || (j || p)) ∧ IsPretty i j p = (p || (j && i)) := by
  decide

/-- C9: for n >= 1, Truncate never panics, its result has at most n
runes, it is the identity when the input has at most n runes, and
otherwise the result is the first n-1 runes of the input followed by a
single ellipsis rune (so no multi-byte character is ever split). -/
theorem c9_truncate (s : String) (n : Int) (h : 1 ≤ n) :
    ∃ t, Truncate s n = some t
      ∧ (t.toList.length : Int) ≤ n
      ∧ (((s.toList.length : Int) ≤ n) → t = s)
      ∧ (¬ ((s.toList.length : Int) ≤ n) →
          t = String.mk (s.toList.take (n - 1).toNat) ++ "…") := by
  by_cases hle : (s.toList.length : Int) ≤ n
  · refine ⟨s, ?_, hle, fun _ => rfl, fun hc => absurd hle hc⟩
    simp only [Truncate, if_pos hle]
  · have hneg : ¬ (n - 1 < 0) := by omega
    refine ⟨String.mk (s.toList.take (n - 1).toNat) ++ "…", ?_, ?_, ?_, fun _ => rfl⟩
    · simp only [Truncate, if_neg hle, if_neg hneg]
    · have hdata : (String.mk (s.toList.take (n - 1).toNat) ++ "…").toList
          = s.toList.take (n - 1).toNat ++ ['…'] := by
        show (String.mk (s.toList.take (n - 1).toNat) ++ "…").data = _
        rw [String.data_append]
      rw [hdata]
      simp only [List.length_append, List.length_take, List.length_singleton]
      have h1 : ((n - 1).toNat : Int) = n - 1 := Int.toNat_of_nonneg (by omega)
      have h2 : min (n - 1).toNat s.toList.length = (n - 1).toNat := by omega
      omega
    · intro hc
      exact absurd hc hle

/-- Witness for C9 at a concrete truncation. -/
theorem c9_witness :
    ∃ t, Truncate "hello" 3 = some t
      ∧ (t.toList.length : Int) ≤ 3
      ∧ ((("hello" : String).toList.length : Int) ≤ 3 → t = "hello")
      ∧ (¬ ((("hello" : String).toList.length : Int) ≤ 3) →
          t = String.mk (("hello" : String).toList.take ((3 : Int) - 1).toNat) ++ "…") :=
  c9_truncate "hello" 3 (by decide)

theorem getVals_addAll (p : Values) (k : String) (vals : List String) :
    getVals (vals.foldl (fun a v => addVal a k v) p) k = getVals p k ++ vals := by
  induction vals generalizing p with
  | nil => simp
  | cons v vs ih =>
    rw [List.foldl_cons, ih, getVals_addVal_self]
    simp

theorem wf_addAll (p : Values) (k : String) (vals : List String)
    (h : WFValues p) :
    WFValues (vals.foldl (fun a v => addVal a k v) p) := by
  induction vals generalizing p with
  | nil => simpa
  | cons v vs ih => exact ih _ (wf_addVal _ _ _ h)

theorem hasKey_buildParamsAux : ∀ (pairs : List String) (p : Values) (k : String),
    hasKey p k = false →
    (∀ v, (k, v) ∈ pairsOf pairs → v = "") →
    hasKey (buildParamsAux p pairs) k = false
  | [], _, _, hp, _ => hp
  | [_], _, _, hp, _ => hp
  | k1 :: v1 :: rest, p, k, hp, he => by
    have hrest : ∀ v, (k, v) ∈ pairsOf rest → v = "" := by
      intro v hv
      refine he v ?_
      simp [pairsOf]
      tauto
    by_cases hv1 : v1 = ""
    · have hstep : buildParamsAux p (k1 :: v1 :: rest) = buildParamsAux p rest := by
        simp [buildParamsAux, hv1]
      rw [hstep]
      exact hasKey_buildParamsAux rest p k hp hrest
    · have hstep : buildParamsAux p (k1 :: v1 :: rest)
          = buildParamsAux (setVal p k1 v1) rest := by
        simp [buildParamsAux, hv1]
      rw [hstep]
      refine hasKey_buildParamsAux rest _ k ?_ hrest
      rw [hasKey_setVal, hp]
      have hk1 : ¬ k1 = k := by
        intro hkk
        refine hv1 (he v1 ?_)
        simp [pairsOf, hkk]
      simp [hk1]

/-- C3: parameter merging is later-wins.  For the auth/caller merge in
buildURL and the fixed-fields/passthrough merge in CreateCard, any key
present in the later source (with a single value, as every caller
supplies) ends up with the later source's value; in particular a
caller-supplied "key" or "token" parameter overrides the credential. -/
theorem c3_later_wins :
    (∀ (c : Client) (params : Values) (k v : String), WFValues params →
      getVals params k = [v] → getVals (buildURLQuery c params) k = [v])
    ∧ (∀ (idList name desc : String) (bag : Values) (k v : String), WFValues bag →
      getVals bag k = [v] → getVals (createCardParams idList name desc bag) k = [v])
    ∧ (∀ (c : Client) (params : Values) (v : String), WFValues params →
      getVals params "key" = [v] → getVals (buildURLQuery c params) "key" = [v])
    ∧ (∀ (c : Client) (params : Values) (v : String), WFValues params →
      getVals params "token" = [v] → getVals (buildURLQuery c params) "token" = [v]) := by
  have main : ∀ (q ps : Values) (k v : String), WFValues ps →
      getVals ps k = [v] → getVals (mergeSet q ps) k = [v] := by
    intro q ps k v hwf hk
    have h := getVals_mergeSet q ps k hwf
    rw [hk] at h
    simpa using h
  refine ⟨?_, ?_, ?_, ?_⟩
  · intro c params k v hwf hk
    exact main _ _ _ _ hwf hk
  · intro idList name desc bag k v hwf hk
    exact main _ _ _ _ hwf hk
  · intro c params v hwf hk
    exact main _ _ _ _ hwf hk
  · intro c params v hwf hk
    exact main _ _ _ _ hwf hk

/-- Witness for C3: a caller-supplied "key" parameter overrides the
credential value in the built query. -/
theorem c3_witness :
    getVals (buildURLQuery ⟨"K", "T"⟩ [("key", ["override"])]) "key" = ["override"] :=
  (c3_later_wins).1 ⟨"K", "T"⟩ [("key", ["override"])] "key" "override"
    (by simp [WFValues, keysOf]) rfl

/-- C4: empty-value omission.  A key all of whose supplied values in the
buildParams argument list are empty is absent from the result, and the
optional CreateBoard fields desc / idOrganization are absent when passed
as the empty string (and not re-introduced through the prefs bag). -/
theorem c4_empty_omitted :
    (∀ (pairs : List String) (k : String),
      (∀ v, (k, v) ∈ pairsOf pairs → v = "") →
      hasKey (buildParams pairs) k = false)
    ∧ (∀ (name idOrg : String) (prefs : Values),
      hasKey prefs "desc" = false →
      hasKey (createBoardParams name "" idOrg prefs) "desc" = false)
    ∧ (∀ (name desc : String) (prefs : Values),
      hasKey prefs "idOrganization" = false →
      hasKey (createBoardParams name desc "" prefs) "idOrganization" = false) := by
  refine ⟨?_, ?_, ?_⟩
  · intro pairs k he
    exact hasKey_buildParamsAux pairs [] k rfl he
  · intro name idOrg prefs hp
    simp only [createBoardParams, ne_eq, not_true_eq_false, if_false]
    refine hasKey_mergeSet _ _ _ ?_ hp
    by_cases h : idOrg ≠ ""
    · rw [if_pos h]
      simp [hasKey_setVal, hasKey]
    · rw [if_neg h]
      simp [hasKey_setVal, hasKey]
  · intro name desc prefs hp
    simp only [createBoardParams, ne_eq, not_true_eq_false, if_false]
    refine hasKey_mergeSet _ _ _ ?_ hp
    by_cases h : desc ≠ ""
    · rw [if_pos h]
      simp [hasKey_setVal, hasKey]
    · rw [if_neg h]
      simp [hasKey_setVal, hasKey]

/-- Witness for C4 with concrete inputs. -/
theorem c4_witness :
    hasKey (buildParams ["desc", "", "name", "Board"]) "desc" = false
    ∧ hasKey (createBoardParams "B" "" "org1" [("x", ["y"])]) "desc" = false := by
  constructor
  · refine (c4_empty_omitted).1 ["desc", "", "name", "Board"] "desc" ?_
    intro v hv
    simp [pairsOf] at hv
    exact hv
  · refine (c4_empty_omitted).2.1 "B" "org1" [("x", ["y"])] ?_
    simp [hasKey]

/-- C10: the query assembled by buildURL holds at most one value per key,
and when Search adds several modelTypes values, only the last one in
slice order survives the merge. -/
theorem c10_last_value_only :
    (∀ (c : Client) (params : Values) (k : String),
      (getVals (buildURLQuery c params) k).length ≤ 1)
    ∧ (∀ (c : Client) (query t : String) (ts : List String) (limit : Int),
      getVals (buildURLQuery c (searchParams query (t :: ts) limit)) "modelTypes"
        = [(t :: ts).getLast (List.cons_ne_nil t ts)]) := by
  have hbase : ∀ (c : Client) (k : String),
      (getVals (authParams c) k).length ≤ 1 := by
    intro c k
    show (getVals [("key", [c.apiKey]), ("token", [c.apiToken])] k).length ≤ 1
    simp only [getVals]
    split
    · simp
    · split
      · simp
      · simp
  constructor
  · intro c params k
    exact getVals_mergeSet_length_le_one _ _ (hbase c) k
  · intro c query t ts limit
    have h0 : (t :: ts).length > 0 := by simp
    have hwf : WFValues (searchParams query (t :: ts) limit) := by
      simp only [searchParams, if_pos h0]
      refine wf_setVal _ _ _ (wf_setVal _ _ _ ?_)
      by_cases hl : limit > 0
      · rw [if_pos hl]
        exact wf_setVal _ _ _ (wf_setVal _ _ _ (wf_setVal _ _ _
          (wf_addAll _ _ _ (wf_setVal _ _ _ wf_nil))))
      · rw [if_neg hl]
        exact wf_addAll _ _ _ (wf_setVal _ _ _ wf_nil)
    have hget : getVals (searchParams query (t :: ts) limit) "modelTypes" = t :: ts := by
      simp only [searchParams, if_pos h0]
      rw [getVals_setVal_ne _ _ _ _ (by decide)]
      rw [getVals_setVal_ne _ _ _ _ (by decide)]
      by_cases hl : limit > 0
      · rw [if_pos hl]
        rw [getVals_setVal_ne _ _ _ _ (by decide)]
        rw [getVals_setVal_ne _ _ _ _ (by decide)]
        rw [getVals_setVal_ne _ _ _ _ (by decide)]
        rw [getVals_addAll, getVals_setVal_ne _ _ _ _ (by decide)]
        simp [getVals]
      · rw [if_neg hl]
        rw [getVals_addAll, getVals_setVal_ne _ _ _ _ (by decide)]
        simp [getVals]
    have h := getVals_mergeSet (authParams c) _ "modelTypes" hwf
    rw [hget] at h
    simpa using h

/-! Scalar date formatting: `output.FormatTime` / `output.FormatDate`.
The two Go `time.Parse` layouts used by the source are modelled by two
strict parsers, matching the documented strictness of parsing with the
RFC&nbsp;3339 layout and with `"2006-01-02T15:04:05.000Z"`. -/

/-- Reads exactly `n` decimal digits, returning their value. -/
def takeFixedDigits (n : Nat) (cs : List Char) : Option (Nat × List Char) :=
  let pre := cs.take n
  if pre.length = n ∧ pre.all Char.isDigit then
    some (pre.foldl (fun a c => a * 10 + (c.toNat - 48)) 0, cs.drop n)
  else none

/-- Requires the next character to be `c`. -/
def expectChar (c : Char) : List Char → Option (List Char)
  | x :: rest => if x = c then some rest else none
  | [] => none

/-- Gregorian leap-year rule used by Go `time`. -/
def isLeapYear (y : Nat) : Bool :=
  (y % 4 = 0 ∧ y % 100 ≠ 0) ∨ y % 400 = 0

/-- Go `daysIn(m, year)`. -/
def daysInMonth (y m : Nat) : Nat :=
  if m = 2 then (if isLeapYear y then 29 else 28)
  else if m = 4 ∨ m = 6 ∨ m = 9 ∨ m = 11 then 30
  else 31

/-- A parsed civil date-time with its zone offset, the result of Go
`time.Parse` for the layouts in question.  Fractional seconds are parsed
but not stored: the `"2006-01-02 15:04"` output format drops them. -/
structure GoTime where
  year : Nat
  month : Nat
  day : Nat
  hour : Nat
  minute : Nat
  second : Nat
  offsetSeconds : Int
  deriving DecidableEq, Repr

/-- Fractional-second skip of Go `parseRFC3339`: a dot followed by at
least one digit consumes the dot and all following digits; anything else
is left in place (and will fail the zone check). -/
def skipFraction (cs : List Char) : List Char :=
  match cs with
  | '.' :: d :: rest =>
    if d.isDigit then (d :: rest).dropWhile Char.isDigit else cs
  | _ => cs

/-- Zone suffix of Go `parseRFC3339`: exactly `Z`, or `+hh:mm` /
`-hh:mm` with `hh <= 23`, `mm <= 59`, ending the input. -/
def parseZone (cs : List Char) : Option Int :=
  match cs with
  | ['Z'] => some 0
  | sign :: rest =>
    if sign = '+' ∨ sign = '-' then
      match takeFixedDigits 2 rest with
      | some (hh, rest2) =>
        match expectChar ':' rest2 with
        | some rest3 =>
          match takeFixedDigits 2 rest3 with
          | some (mm, rest4) =>
            if rest4 = [] ∧ hh ≤ 23 ∧ mm ≤ 59 then
              some (if sign = '-' then -(((hh * 60 + mm) * 60 : Nat) : Int)
                else (((hh * 60 + mm) * 60 : Nat) : Int))
            else none
          | none => none
        | none => none
      | none => none
    else none
  | [] => none

/-- Go `time.Parse(time.RFC3339, s)`: strict
`YYYY-MM-DDTHH:MM:SS(.digits)?(Z|±hh:mm)` with calendar range checks
(month 1–12, day within the month, hour ≤ 23, minute/second ≤ 59). -/
def parseRFC3339 (s : String) : Option GoTime := do
  let cs := s.toList
  let (year, r1) ← takeFixedDigits 4 cs
  let r2 ← expectChar '-' r1
  let (month, r3) ← takeFixedDigits 2 r2
  let r4 ← expectChar '-' r3
  let (day, r5) ← takeFixedDigits 2 r4
  let r6 ← expectChar 'T' r5
  let (hour, r7) ← takeFixedDigits 2 r6
  let r8 ← expectChar ':' r7
  let (minute, r9) ← takeFixedDigits 2 r8
  let r10 ← expectChar ':' r9
  let (second, r11) ← takeFixedDigits 2 r10
  let off ← parseZone (skipFraction r11)
  if 1 ≤ month ∧ month ≤ 12 ∧ 1 ≤ day ∧ day ≤ daysInMonth year month
      ∧ hour ≤ 23 ∧ minute ≤ 59 ∧ second ≤ 59 then
    some ⟨year, month, day, hour, minute, second, off⟩
  else none

/-- Go `time.Parse("2006-01-02T15:04:05.000Z", s)`: like the RFC 3339
form but demanding exactly three fractional digits and a literal closing
`Z` (zone offset 0). -/
def parseMilliZ (s : String) : Option GoTime := do
  let cs := s.toList
  let (year, r1) ← takeFixedDigits 4 cs
  let r2 ← expectChar '-' r1
  let (month, r3) ← takeFixedDigits 2 r2
  let r4 ← expectChar '-' r3
  let (day, r5) ← takeFixedDigits 2 r4
  let r6 ← expectChar 'T' r5
  let (hour, r7) ← takeFixedDigits 2 r6
  let r8 ← expectChar ':' r7
  let (minute, r9) ← takeFixedDigits 2 r8
  let r10 ← expectChar ':' r9
  let (second, r11) ← takeFixedDigits 2 r10
  let r12 ← expectChar '.' r11
  let (_, r13) ← takeFixedDigits 3 r12
  let r14 ← expectChar 'Z' r13
  if r14 = [] ∧ 1 ≤ month ∧ month ≤ 12 ∧ 1 ≤ day ∧ day ≤ daysInMonth year month
      ∧ hour ≤ 23 ∧ minute ≤ 59 ∧ second ≤ 59 then
    some ⟨year, month, day, hour, minute, second, 0⟩
  else none

/-- Days since 1970-01-01 of a proleptic-Gregorian civil date
(Hinnant's algorithm, as used for Go `time` arithmetic). -/
def daysFromCivil (y : Int) (m d : Nat) : Int :=
  let y2 : Int := if m ≤ 2 then y - 1 else y
  let era : Int := Int.fdiv y2 400
  let yoe : Nat := (y2 - era * 400).toNat
  let mp : Nat := if m > 2 then m - 3 else m + 9
  let doy : Nat := (153 * mp + 2) / 5 + d - 1
  let doe : Nat := yoe * 365 + yoe / 4 - yoe / 100 + doy
  era * 146097 + (doe : Int) - 719468

/-- Civil date of a days-since-epoch count (inverse direction). -/
def civilFromDays (z0 : Int) : Int × Nat × Nat :=
  let z := z0 + 719468
  let era : Int := Int.fdiv z 146097
  let doe : Nat := (z - era * 146097).toNat
  let yoe : Nat := (doe - doe / 1460 + doe / 36524 - doe / 146096) / 365
  let doy : Nat := doe - (365 * yoe + yoe / 4 - yoe / 100)
  let mp : Nat := (5 * doy + 2) / 153
  let d : Nat := doy - (153 * mp + 2) / 5 + 1
  let m : Nat := if mp < 10 then mp + 3 else mp - 9
  let y : Int := (yoe : Int) + era * 400 + (if m ≤ 2 then 1 else 0)
  (y, m, d)

/-- Go `t.UTC()`: normalises a parsed time to UTC civil fields by
shifting out the zone offset. -/
def toUTC (t : GoTime) : Int × Nat × Nat × Nat × Nat × Nat :=
  let total : Int := daysFromCivil (t.year : Int) t.month t.day * 86400
      + ((t.hour * 3600 + t.minute * 60 + t.second : Nat) : Int) - t.offsetSeconds
  let days : Int := Int.fdiv total 86400
  let sod : Nat := (total - days * 86400).toNat
  let c := civilFromDays days
  (c.1, c.2.1, c.2.2, sod / 3600, (sod % 3600) / 60, sod % 60)

/-- Zero-padded decimal of fixed minimum width. -/
def padNat (width n : Nat) : String :=
  let s := toString n
  if s.length < width then String.mk (List.replicate (width - s.length) '0') ++ s
  else s

/-- Year component of Go `Format` (4 digits, sign for negative years). -/
def formatYear (y : Int) : String :=
  if y < 0 then "-" ++ padNat 4 (-y).toNat else padNat 4 y.toNat

/-- Go `t.UTC().Format("2006-01-02 15:04")`. -/
def formatGoTime (t : GoTime) : String :=
  let u := toUTC t
  formatYear u.1 ++ "-" ++ padNat 2 u.2.1 ++ "-" ++ padNat 2 u.2.2.1
    ++ " " ++ padNat 2 u.2.2.2.1 ++ ":" ++ padNat 2 u.2.2.2.2.1

/-- Truncate never panics for `1 <= maxLen`. -/
theorem truncate_isSome (s : String) (n : Int) (h : 1 ≤ n) :
    (Truncate s n).isSome := by
  unfold Truncate
  by_cases hle : ((s.toList).length : Int) ≤ n
  · rw [if_pos hle]
    rfl
  · rw [if_neg hle, if_neg (by omega : ¬ n - 1 < 0)]
    rfl

/-- Total value of `Truncate` at call sites with a constant
`maxLen >= 1`, where the Go slice cannot panic (`truncate_isSome`). -/
def truncateT (s : String) (maxLen : Int) : String :=
  (Truncate s maxLen).getD ""

/-- Go `output.FormatTime`: "-" for the empty string, the
`"2006-01-02 15:04"` UTC rendering when either layout parses, and the
16-rune truncated raw value otherwise. -/
def FormatTime (s : String) : String :=
  if s = "" then "-"
  else
    match parseRFC3339 s with
    | some t => formatGoTime t
    | none =>
      match parseMilliZ s with
      | some t => formatGoTime t
      | none => truncateT s 16

/-- The UTF-8 encoding of one code point. -/
def utf8Bytes (c : Char) : List Nat :=
  let n := c.toNat
  if n < 0x80 then [n]
  else if n < 0x800 then [0xC0 + n / 0x40, 0x80 + n % 0x40]
  else if n < 0x10000 then
    [0xE0 + n / 0x1000, 0x80 + (n / 0x40) % 0x40, 0x80 + n % 0x40]
  else
    [0xF0 + n / 0x40000, 0x80 + (n / 0x1000) % 0x40,
      0x80 + (n / 0x40) % 0x40, 0x80 + n % 0x40]

/-- The UTF-8 bytes of a string (a Go string is a byte slice). -/
def stringUTF8 (s : String) : List Nat :=
  s.toList.flatMap utf8Bytes

/-- Go string slice `s[:n]`: the first `n` bytes, or a panic (`none`)
when `n` exceeds the byte length. -/
def goBytesTake (s : String) (n : Nat) : Option (List Nat) :=
  if n ≤ (stringUTF8 s).length then some ((stringUTF8 s).take n) else none

/-- Go `output.FormatDate`: "-" for a nil or empty pointer, otherwise
the byte slice `FormatTime(*s)[:10]`.  The result is the byte sequence
written to the output; `none` models the slice panic. -/
def FormatDate (s : Option String) : Option (List Nat) :=
  match s with
  | none => some (stringUTF8 "-")
  | some str =>
    if str = "" then some (stringUTF8 "-")
    else goBytesTake (FormatTime str) 10

/-- C5 (code bug): FormatTime is total as specified — "-" when absent,
the UTC `YYYY-MM-DD HH:MM` form for parseable input, truncated raw
display otherwise — but FormatDate is not: on the unparseable one-rune
input "x" FormatTime falls back to the raw display "x", and the slice
`FormatTime(*s)[:10]` in FormatDate demands 10 bytes from a 1-byte
string, a runtime panic rather than any rendered value. -/
theorem c5_formatdate_panics :
    FormatTime "" = "-"
    ∧ FormatTime "x" = "x"
    ∧ FormatTime "2024-03-05T10:20:30Z" = "2024-03-05 10:20"
    ∧ FormatDate (some "2024-03-05T10:20:30Z") = some (stringUTF8 "2024-03-05")
    ∧ FormatDate none = some (stringUTF8 "-")
    ∧ FormatDate (some "x") = none := by
  refine ⟨by decide, by decide, by decide, by decide, by decide, by decide⟩

/-! JSON decoding: a model of `encoding/json.Unmarshal` for the resource
shapes the claims touch (`Board`, `[]TrelloList`).  Error message texts
are condensed; only their presence and classification matter to the
claims, which quantify over the message. -/

/-- JSON values.  Numbers keep their raw lexeme: no numeric field of the
shapes below is interpreted by any claim. -/
inductive Json where
  | null
  | bool (b : Bool)
  | num (raw : String)
  | str (s : String)
  | arr (elems : List Json)
  | obj (fields : List (String × Json))

/-- The opening-brace character, written via its code point. -/
def lbraceChar : Char := Char.ofNat 123

/-- The closing-brace character, written via its code point. -/
def rbraceChar : Char := Char.ofNat 125

/-- JSON insignificant whitespace. -/
def isWSChar (c : Char) : Bool :=
  c = ' ' ∨ c = '\t' ∨ c = '\n' ∨ c = '\r'

/-- Drops leading JSON whitespace. -/
def skipWS (cs : List Char) : List Char :=
  cs.dropWhile isWSChar

/-- Hexadecimal digit value. -/
def hexVal (c : Char) : Option Nat :=
  if c.isDigit then some (c.toNat - 48)
  else if 'a' ≤ c ∧ c ≤ 'f' then some (c.toNat - 87)
  else if 'A' ≤ c ∧ c ≤ 'F' then some (c.toNat - 55)
  else none

/-- JSON string body after the opening quote: content and remainder
after the closing quote.  Escapes are decoded; a lone `\uXXXX` surrogate
half is not paired (Go substitutes the replacement rune there; no claim
depends on such inputs).  Raw control characters are rejected. -/
def parseStringBody : Nat → List Char → Option (List Char × List Char)
  | 0, _ => none
  | _ + 1, [] => none
  | fuel + 1, c :: rest =>
    if c = '"' then some ([], rest)
    else if c = '\\' then
      match rest with
      | [] => none
      | e :: rest2 =>
        let cont := fun (decoded : Char) (rem : List Char) =>
          match parseStringBody fuel rem with
          | some (acc, rem2) => some (decoded :: acc, rem2)
          | none => none
        if e = '"' then cont '"' rest2
        else if e = '\\' then cont '\\' rest2
        else if e = '/' then cont '/' rest2
        else if e = 'b' then cont (Char.ofNat 8) rest2
        else if e = 'f' then cont (Char.ofNat 12) rest2
        else if e = 'n' then cont '\n' rest2
        else if e = 'r' then cont '\r' rest2
        else if e = 't' then cont '\t' rest2
        else if e = 'u' then
          match rest2 with
          | h1 :: h2 :: h3 :: h4 :: rest3 =>
            match hexVal h1, hexVal h2, hexVal h3, hexVal h4 with
            | some a, some b, some c2, some d =>
              cont (Char.ofNat (((a * 16 + b) * 16 + c2) * 16 + d)) rest3
            | _, _, _, _ => none
          | _ => none
        else none
    else if c.toNat < 32 then none
    else
      match parseStringBody fuel rest with
      | some (acc, rem2) => some (c :: acc, rem2)
      | none => none

/-- One or more decimal digits. -/
def takeDigits1 (cs : List Char) : Option (List Char × List Char) :=
  let ds := cs.takeWhile Char.isDigit
  if ds.isEmpty then none else some (ds, cs.dropWhile Char.isDigit)

/-- Optional fraction part of a JSON number. -/
def parseFracPart (cs : List Char) : Option (List Char × List Char) :=
  match cs with
  | '.' :: rest =>
    match takeDigits1 rest with
    | some (ds, rest2) => some ('.' :: ds, rest2)
    | none => none
  | _ => some ([], cs)

/-- Optional exponent part of a JSON number. -/
def parseExpPart (cs : List Char) : Option (List Char × List Char) :=
  match cs with
  | e :: rest =>
    if e = 'e' ∨ e = 'E' then
      let sp : List Char × List Char :=
        match rest with
        | '+' :: r => (['+'], r)
        | '-' :: r => (['-'], r)
        | _ => ([], rest)
      match takeDigits1 sp.2 with
      | some (ds, rest3) => some (e :: (sp.1 ++ ds), rest3)
      | none => none
    else some ([], cs)
  | [] => some ([], [])

/-- JSON number lexeme `-?(0|[1-9][0-9]*)(.[0-9]+)?([eE][+-]?[0-9]+)?`,
kept uninterpreted. -/
def parseNumberLexeme (cs : List Char) : Option (List Char × List Char) := do
  let sp : List Char × List Char :=
    match cs with
    | '-' :: rest => (['-'], rest)
    | _ => ([], cs)
  let ip ←
    match sp.2 with
    | '0' :: rest => some ((['0'] : List Char), rest)
    | c :: rest =>
      if c.isDigit then
        some ((c :: rest).takeWhile Char.isDigit, (c :: rest).dropWhile Char.isDigit)
      else none
    | [] => none
  let fp ← parseFracPart ip.2
  let ep ← parseExpPart fp.2
  some (sp.1 ++ ip.1 ++ fp.1 ++ ep.1, ep.2)

mutual

/-- A JSON value with leading whitespace, returning the remainder. -/
def parseJsonValue : Nat → List Char → Option (Json × List Char)
  | 0, _ => none
  | fuel + 1, cs =>
    match skipWS cs with
    | [] => none
    | c :: rest =>
      if c = 'n' then
        match rest with
        | 'u' :: 'l' :: 'l' :: r => some (.null, r)
        | _ => none
      else if c = 't' then
        match rest with
        | 'r' :: 'u' :: 'e' :: r => some (.bool true, r)
        | _ => none
      else if c = 'f' then
        match rest with
        | 'a' :: 'l' :: 's' :: 'e' :: r => some (.bool false, r)
        | _ => none
      else if c = '"' then
        match parseStringBody (rest.length + 1) rest with
        | some (content, r) => some (.str (String.mk content), r)
        | none => none
      else if c = '[' then
        parseJsonArrayRest fuel rest
      else if c = lbraceChar then
        parseJsonObjRest fuel rest
      else if c = '-' ∨ c.isDigit then
        match parseNumberLexeme (c :: rest) with
        | some (lex, r) => some (.num (String.mk lex), r)
        | none => none
      else none

/-- Array contents after `[`. -/
def parseJsonArrayRest : Nat → List Char → Option (Json × List Char)
  | 0, _ => none
  | fuel + 1, cs =>
    match skipWS cs with
    | ']' :: r => some (.arr [], r)
    | cs2 =>
      match parseJsonValue fuel cs2 with
      | some (v, r) =>
        match parseJsonArrayTail fuel r with
        | some (vs, r2) => some (.arr (v :: vs), r2)
        | none => none
      | none => none

/-- Array continuation after an element: `,` element … or `]`. -/
def parseJsonArrayTail : Nat → List Char → Option (List Json × List Char)
  | 0, _ => none
  | fuel + 1, cs =>
    match skipWS cs with
    | ']' :: r => some ([], r)
    | ',' :: r =>
      match parseJsonValue fuel r with
      | some (v, r2) =>
        match parseJsonArrayTail fuel r2 with
        | some (vs, r3) => some (v :: vs, r3)
        | none => none
      | none => none
    | _ => none

/-- One `"key": value` member. -/
def parseJsonMember : Nat → List Char → Option ((String × Json) × List Char)
  | 0, _ => none
  | fuel + 1, cs =>
    match skipWS cs with
    | '"' :: r =>
      match parseStringBody (r.length + 1) r with
      | some (key, r2) =>
        match skipWS r2 with
        | ':' :: r3 =>
          match parseJsonValue fuel r3 with
          | some (v, r4) => some ((String.mk key, v), r4)
          | none => none
        | _ => none
      | none => none
    | _ => none

/-- Object contents after the opening brace. -/
def parseJsonObjRest : Nat → List Char → Option (Json × List Char)
  | 0, _ => none
  | fuel + 1, cs =>
    match skipWS cs with
    | [] => none
    | c :: r =>
      if c = rbraceChar then some (.obj [], r)
      else
        match parseJsonMember fuel (c :: r) with
        | some (kv, r2) =>
          match parseJsonObjTail fuel r2 with
          | some (kvs, r3) => some (.obj (kv :: kvs), r3)
          | none => none
        | none => none

/-- Object continuation after a member: `,` member … or the closing
brace. -/
def parseJsonObjTail : Nat → List Char → Option (List (String × Json) × List Char)
  | 0, _ => none
  | fuel + 1, cs =>
    match skipWS cs with
    | [] => none
    | c :: r =>
      if c = rbraceChar then some ([], r)
      else if c = ',' then
        match parseJsonMember fuel r with
        | some (kv, r2) =>
          match parseJsonObjTail fuel r2 with
          | some (kvs, r3) => some (kv :: kvs, r3)
          | none => none
        | none => none
      else none

end

/-- Top level of `json.Unmarshal`: one value, then only trailing
whitespace. -/
def parseJsonTop (data : String) : Except String Json :=
  match parseJsonValue (2 * data.length + 2) data.toList with
  | some (v, rest) =>
    if skipWS rest = [] then .ok v
    else .error "invalid character after top-level value"
  | none => .error "invalid JSON"

/-! Resource shapes (`internal/api/types.go`) and their decoders. -/

/-- Go `api.BoardPrefs`. -/
structure BoardPrefs where
  permissionLevel : String
  voting : String
  comments : String
  background : String
  backgroundColor : String
  backgroundImage : String
  selfJoin : Bool
  cardCovers : Bool
  isTemplate : Bool
  cardAging : String
  deriving DecidableEq, Repr

/-- Go `api.LabelNames`. -/
structure LabelNames where
  black : String
  blue : String
  green : String
  lime : String
  orange : String
  pink : String
  purple : String
  red : String
  sky : String
  yellow : String
  deriving DecidableEq, Repr

/-- Go `api.Board`. -/
structure Board where
  id : String
  name : String
  desc : String
  closed : Bool
  idOrganization : String
  url : String
  shortUrl : String
  shortLink : String
  dateLastActivity : String
  prefs : BoardPrefs
  labelNames : LabelNames
  deriving DecidableEq, Repr

/-- Go zero value of `BoardPrefs`. -/
def BoardPrefs.zero : BoardPrefs :=
  ⟨"", "", "", "", "", "", false, false, false, ""⟩

/-- Go zero value of `LabelNames`. -/
def LabelNames.zero : LabelNames :=
  ⟨"", "", "", "", "", "", "", "", "", ""⟩

/-- Go zero value of `Board` (`var b Board`). -/
def Board.zero : Board :=
  ⟨"", "", "", false, "", "", "", "", "", BoardPrefs.zero, LabelNames.zero⟩

/-- Go `api.TrelloList`.  `pos` is a `float64`; it is modelled by the
raw JSON number lexeme, which no claim interprets. -/
structure TrelloList where
  id : String
  name : String
  closed : Bool
  idBoard : String
  pos : String
  subscribed : Bool
  deriving DecidableEq, Repr

/-- Go zero value of `TrelloList` (a zero `float64` re-encodes as 0). -/
def TrelloList.zero : TrelloList :=
  ⟨"", "", false, "", "0", false⟩

/-- Unmarshal of a JSON value into a Go `string` field: strings are
taken, `null` leaves the current value, anything else is a type error. -/
def decodeStringField (cur : String) : Json → Except String String
  | .str s => .ok s
  | .null => .ok cur
  | _ => .error "json: cannot unmarshal value into Go struct field of type string"

/-- Unmarshal of a JSON value into a Go `bool` field. -/
def decodeBoolField (cur : Bool) : Json → Except String Bool
  | .bool b => .ok b
  | .null => .ok cur
  | _ => .error "json: cannot unmarshal value into Go struct field of type bool"

/-- Unmarshal of a JSON value into a Go `float64` field, kept as the raw
lexeme. -/
def decodeNumField (cur : String) : Json → Except String String
  | .num raw => .ok raw
  | .null => .ok cur
  | _ => .error "json: cannot unmarshal value into Go struct field of type float64"

/-- One object member applied to a `BoardPrefs` under its json tags;
unknown keys are ignored. -/
def applyPrefsField (p : BoardPrefs) (key : String) (v : Json) :
    Except String BoardPrefs :=
  if key = "permissionLevel" then
    (decodeStringField p.permissionLevel v).map (fun x => { p with permissionLevel := x })
  else if key = "voting" then
    (decodeStringField p.voting v).map (fun x => { p with voting := x })
  else if key = "comments" then
    (decodeStringField p.comments v).map (fun x => { p with comments := x })
  else if key = "background" then
    (decodeStringField p.background v).map (fun x => { p with background := x })
  else if key = "backgroundColor" then
    (decodeStringField p.backgroundColor v).map (fun x => { p with backgroundColor := x })
  else if key = "backgroundImage" then
    (decodeStringField p.backgroundImage v).map (fun x => { p with backgroundImage := x })
  else if key = "selfJoin" then
    (decodeBoolField p.selfJoin v).map (fun x => { p with selfJoin := x })
  else if key = "cardCovers" then
    (decodeBoolField p.cardCovers v).map (fun x => { p with cardCovers := x })
  else if key = "isTemplate" then
    (decodeBoolField p.isTemplate v).map (fun x => { p with isTemplate := x })
  else if key = "cardAging" then
    (decodeStringField p.cardAging v).map (fun x => { p with cardAging := x })
  else .ok p

/-- Unmarshal of a JSON value into a `BoardPrefs` struct field. -/
def decodeBoardPrefs (cur : BoardPrefs) : Json → Except String BoardPrefs
  | .null => .ok cur
  | .obj fields => fields.foldlM (fun acc kv => applyPrefsField acc kv.1 kv.2) cur
  | _ => .error "json: cannot unmarshal value into Go struct field of type BoardPrefs"

/-- One object member applied to a `LabelNames`. -/
def applyLabelNamesField (p : LabelNames) (key : String) (v : Json) :
    Except String LabelNames :=
  if key = "black" then
    (decodeStringField p.black v).map (fun x => { p with black := x })
  else if key = "blue" then
    (decodeStringField p.blue v).map (fun x => { p with blue := x })
  else if key = "green" then
    (decodeStringField p.green v).map (fun x => { p with green := x })
  else if key = "lime" then
    (decodeStringField p.lime v).map (fun x => { p with lime := x })
  else if key = "orange" then
    (decodeStringField p.orange v).map (fun x => { p with orange := x })
  else if key = "pink" then
    (decodeStringField p.pink v).map (fun x => { p with pink := x })
  else if key = "purple" then
    (decodeStringField p.purple v).map (fun x => { p with purple := x })
  else if key = "red" then
    (decodeStringField p.red v).map (fun x => { p with red := x })
  else if key = "sky" then
    (decodeStringField p.sky v).map (fun x => { p with sky := x })
  else if key = "yellow" then
    (decodeStringField p.yellow v).map (fun x => { p with yellow := x })
  else .ok p

/-- Unmarshal of a JSON value into a `LabelNames` struct field. -/
def decodeLabelNames (cur : LabelNames) : Json → Except String LabelNames
  | .null => .ok cur
  | .obj fields => fields.foldlM (fun acc kv => applyLabelNamesField acc kv.1 kv.2) cur
  | _ => .error "json: cannot unmarshal value into Go struct field of type LabelNames"

/-- One object member applied to a `Board` under its json tags. -/
def applyBoardField (b : Board) (key : String) (v : Json) :
    Except String Board :=
  if key = "id" then
    (decodeStringField b.id v).map (fun x => { b with id := x })
  else if key = "name" then
    (decodeStringField b.name v).map (fun x => { b with name := x })
  else if key = "desc" then
    (decodeStringField b.desc v).map (fun x => { b with desc := x })
  else if key = "closed" then
    (decodeBoolField b.closed v).map (fun x => { b with closed := x })
  else if key = "idOrganization" then
    (decodeStringField b.idOrganization v).map (fun x => { b with idOrganization := x })
  else if key = "url" then
    (decodeStringField b.url v).map (fun x => { b with url := x })
  else if key = "shortUrl" then
    (decodeStringField b.shortUrl v).map (fun x => { b with shortUrl := x })
  else if key = "shortLink" then
    (decodeStringField b.shortLink v).map (fun x => { b with shortLink := x })
  else if key = "dateLastActivity" then
    (decodeStringField b.dateLastActivity v).map (fun x => { b with dateLastActivity := x })
  else if key = "prefs" then
    (decodeBoardPrefs b.prefs v).map (fun x => { b with prefs := x })
  else if key = "labelNames" then
    (decodeLabelNames b.labelNames v).map (fun x => { b with labelNames := x })
  else .ok b

/-- Go `json.Unmarshal(body, &b)` for `var b Board`: syntax errors and
top-level shape mismatches fail; `null` leaves the zero value; object
members are folded over the zero value.  (Go records the first error
while continuing to fill later fields; only the non-nil error and the
caller contract that the value is then discarded are relevant here.) -/
def unmarshalBoard (data : String) : Except String Board :=
  match parseJsonTop data with
  | .error e => .error e
  | .ok .null => .ok Board.zero
  | .ok (.obj fields) =>
    fields.foldlM (fun acc kv => applyBoardField acc kv.1 kv.2) Board.zero
  | .ok _ => .error "json: cannot unmarshal value into Go value of type api.Board"

/-- Go `Client.GetBoard`: `Get` then `json.Unmarshal`.  The Go function
returns `&b, json.Unmarshal(body, &b)`; per the Go error contract the
pair is an error result whenever the error is non-nil, modelled by
`Except`. -/
def GetBoard (c : Client) (id : String) (params : Values)
    (wire : HTTPOutcome) : Except GoError Board :=
  match clientGet c ("/boards/" ++ id) params wire with
  | .error e => .error e
  | .ok body =>
    match unmarshalBoard body with
    | .ok b => .ok b
    | .error e => .error (.decodeError e)

/-- C6: for every success-status response whose body fails to decode as
a Board, GetBoard returns a Decode Failure — an error distinct from the
Transport and API Failure constructors — and never a success value. -/
theorem c6_decode_failure (c : Client) (id : String) (params : Values)
    (status : Nat) (body : String) (e : String)
    (hst : status < 400) (hdec : unmarshalBoard body = .error e) :
    GetBoard c id params (.response status body) = .error (.decodeError e)
    ∧ (∀ m, GoError.decodeError e ≠ GoError.transport m)
    ∧ (∀ s m, GoError.decodeError e ≠ GoError.trelloError s m)
    ∧ (∀ b, GetBoard c id params (.response status body) ≠ .ok b) := by
  have hok : clientGet c ("/boards/" ++ id) params (.response status body) = .ok body := by
    simp [clientGet, doRequest, Nat.not_le.mpr hst]
  refine ⟨?_, by simp, by simp, ?_⟩
  · simp [GetBoard, hok, hdec]
  · intro b
    simp [GetBoard, hok, hdec]

/-- Witness for C6: a success response with the non-JSON body "oops". -/
theorem c6_witness :
    GetBoard ⟨"k", "t"⟩ "b1" [] (.response 200 "oops")
      = .error (.decodeError "invalid JSON") :=
  (c6_decode_failure ⟨"k", "t"⟩ "b1" [] 200 "oops" "invalid JSON"
    (by decide) (by rfl)).1

/-! JSON encoding (`encoding/json` Marshal / Encoder) and the tabular
renderers of `internal/output`, as far as the claims reach them. -/

/-- Lower-case hexadecimal digit. -/
def hexDigit (n : Nat) : Char :=
  if n < 10 then Char.ofNat (48 + n) else Char.ofNat (87 + n)

/-- Escaping of one character by Go `encoding/json` (HTML escaping on,
as it is for `json.NewEncoder` without `SetEscapeHTML(false)`). -/
def jsonEscapeChar (c : Char) : List Char :=
  if c = '"' then ['\\', '"']
  else if c = '\\' then ['\\', '\\']
  else if c = '\n' then ['\\', 'n']
  else if c = '\r' then ['\\', 'r']
  else if c = '\t' then ['\\', 't']
  else if c.toNat < 32 then
    ['\\', 'u', '0', '0', hexDigit (c.toNat / 16), hexDigit (c.toNat % 16)]
  else if c = '<' then ['\\', 'u', '0', '0', '3', 'c']
  else if c = '>' then ['\\', 'u', '0', '0', '3', 'e']
  else if c = '&' then ['\\', 'u', '0', '0', '2', '6']
  else if c.toNat = 0x2028 then ['\\', 'u', '2', '0', '2', '8']
  else if c.toNat = 0x2029 then ['\\', 'u', '2', '0', '2', '9']
  else [c]

/-- A JSON string literal for `s`. -/
def encodeJsonString (s : String) : String :=
  "\"" ++ String.mk (s.toList.flatMap jsonEscapeChar) ++ "\""

mutual

/-- Compact (single-line) encoding, as `json.Marshal` produces. -/
def renderJson : Json → String
  | .null => "null"
  | .bool true => "true"
  | .bool false => "false"
  | .num raw => raw
  | .str s => encodeJsonString s
  | .arr elems => "[" ++ renderJsonList elems ++ "]"
  | .obj fields =>
    String.mk [lbraceChar] ++ renderJsonFields fields ++ String.mk [rbraceChar]

/-- Comma-joined compact encodings. -/
def renderJsonList : List Json → String
  | [] => ""
  | [x] => renderJson x
  | x :: y :: rest => renderJson x ++ "," ++ renderJsonList (y :: rest)

/-- Comma-joined compact member encodings. -/
def renderJsonFields : List (String × Json) → String
  | [] => ""
  | [(k, v)] => encodeJsonString k ++ ":" ++ renderJson v
  | (k, v) :: y :: rest =>
    encodeJsonString k ++ ":" ++ renderJson v ++ "," ++ renderJsonFields (y :: rest)

end

/-- Indentation prefix at a nesting depth (`SetIndent("", "  ")`). -/
def indentStr (depth : Nat) : String :=
  String.mk (List.replicate (2 * depth) ' ')

mutual

/-- Indented encoding, as an `Encoder` with `SetIndent("", "  ")`
produces.  Empty containers stay on one line. -/
def renderJsonIndented : Nat → Json → String
  | _, .null => "null"
  | _, .bool true => "true"
  | _, .bool false => "false"
  | _, .num raw => raw
  | _, .str s => encodeJsonString s
  | _, .arr [] => "[]"
  | depth, .arr (x :: xs) =>
    "[\n" ++ renderJsonIndentedList (depth + 1) (x :: xs)
      ++ "\n" ++ indentStr depth ++ "]"
  | _, .obj [] => String.mk [lbraceChar] ++ String.mk [rbraceChar]
  | depth, .obj (f :: fs) =>
    String.mk [lbraceChar] ++ "\n" ++ renderJsonIndentedFields (depth + 1) (f :: fs)
      ++ "\n" ++ indentStr depth ++ String.mk [rbraceChar]

/-- Lines of indented array elements joined by `,\n`. -/
def renderJsonIndentedList : Nat → List Json → String
  | _, [] => ""
  | depth, [x] => indentStr depth ++ renderJsonIndented depth x
  | depth, x :: y :: rest =>
    indentStr depth ++ renderJsonIndented depth x ++ ",\n"
      ++ renderJsonIndentedList depth (y :: rest)

/-- Lines of indented object members joined by `,\n`. -/
def renderJsonIndentedFields : Nat → List (String × Json) → String
  | _, [] => ""
  | depth, [(k, v)] =>
    indentStr depth ++ encodeJsonString k ++ ": " ++ renderJsonIndented depth v
  | depth, (k, v) :: y :: rest =>
    indentStr depth ++ encodeJsonString k ++ ": " ++ renderJsonIndented depth v
      ++ ",\n" ++ renderJsonIndentedFields depth (y :: rest)

end

/-- Go `output.PrintJSON`: an `Encoder` writes the encoding (indented
when `pretty`) followed by a newline.  `Encode` cannot fail for the
plain data shapes of this program, so the returned error is always nil
and only the written text is modelled. -/
def PrintJSON (v : Json) (pretty : Bool) : String :=
  (if pretty then renderJsonIndented 0 v else renderJson v) ++ "\n"

/-- Pads a cell with spaces to the given rune width. -/
def padRight (s : String) (w : Nat) : String :=
  s ++ String.mk (List.replicate (w - s.toList.length) ' ')

/-- Width `text/tabwriter` assigns to column `i`: widest cell plus the
padding of 2 (`NewWriter(w, 0, 8, 2, ' ', 0)`). -/
def columnWidth (table : List (List String)) (i : Nat) : Nat :=
  (table.map (fun row => ((row.getD i "").toList.length))).foldl Nat.max 0 + 2

/-- One tabwriter line: every tab-terminated cell padded to its column
width, the final cell written as-is. -/
def renderTableRow : List Nat → List String → String
  | _, [] => ""
  | _, [cell] => cell
  | w :: ws, cell :: rest => padRight cell w ++ renderTableRow ws rest
  | [], cell :: _ => cell

/-- Go `output.PrintTable` through `text/tabwriter`: a header line then
one line per row, columns aligned with a two-space gutter. -/
def PrintTable (headers : List String) (rows : List (List String)) : String :=
  let table := headers :: rows
  let widths := (List.range headers.length).map (fun i => columnWidth table i)
  String.join (table.map (fun row => renderTableRow widths row ++ "\n"))

/-- Go `output.PrintKeyValue`: rows of exactly two entries, label column
aligned; other rows are skipped by the source's length check. -/
def PrintKeyValue (rows : List (List String)) : String :=
  let printed := rows.filter (fun r => r.length = 2)
  let w := (printed.map (fun r => (r.getD 0 "").toList.length)).foldl Nat.max 0 + 2
  String.join (printed.map (fun r => padRight (r.getD 0 "") w ++ r.getD 1 "" ++ "\n"))

/-- One object member applied to a `TrelloList` under its json tags. -/
def applyTrelloListField (l : TrelloList) (key : String) (v : Json) :
    Except String TrelloList :=
  if key = "id" then
    (decodeStringField l.id v).map (fun x => { l with id := x })
  else if key = "name" then
    (decodeStringField l.name v).map (fun x => { l with name := x })
  else if key = "closed" then
    (decodeBoolField l.closed v).map (fun x => { l with closed := x })
  else if key = "idBoard" then
    (decodeStringField l.idBoard v).map (fun x => { l with idBoard := x })
  else if key = "pos" then
    (decodeNumField l.pos v).map (fun x => { l with pos := x })
  else if key = "subscribed" then
    (decodeBoolField l.subscribed v).map (fun x => { l with subscribed := x })
  else .ok l

/-- Unmarshal of one JSON value into a zeroed `TrelloList` slice
element. -/
def decodeTrelloList (cur : TrelloList) : Json → Except String TrelloList
  | .null => .ok cur
  | .obj fields => fields.foldlM (fun acc kv => applyTrelloListField acc kv.1 kv.2) cur
  | _ => .error "json: cannot unmarshal value into Go value of type api.TrelloList"

/-- Go `json.Unmarshal(body, &lists)` for `var lists []TrelloList`.
A JSON array decodes element-wise into zeroed elements.  (Top-level
`null` leaves the slice nil; a nil and an empty slice only differ when
re-encoded, which no claim exercises — both are the empty list here.) -/
def unmarshalTrelloLists (data : String) : Except String (List TrelloList) :=
  match parseJsonTop data with
  | .error e => .error e
  | .ok .null => .ok []
  | .ok (.arr elems) => elems.mapM (fun j => decodeTrelloList TrelloList.zero j)
  | .ok _ => .error "json: cannot unmarshal value into Go value of type []api.TrelloList"

/-- Go `Client.GetBoardLists`. -/
def GetBoardLists (c : Client) (boardID filter : String)
    (wire : HTTPOutcome) : Except GoError (List TrelloList) :=
  let params := if filter ≠ "" then setVal [] "filter" filter else []
  match clientGet c ("/boards/" ++ boardID ++ "/lists") params wire with
  | .error e => .error e
  | .ok body =>
    match unmarshalTrelloLists body with
    | .ok lists => .ok lists
    | .error e => .error (.decodeError e)

/-- Go `api.Label`. -/
structure Label where
  id : String
  idBoard : String
  name : String
  color : String
  deriving DecidableEq, Repr

/-- Go `api.CardBadges`.  `int` fields are modelled as `Int`. -/
structure CardBadges where
  attachments : Int
  checkItems : Int
  checkItemsChecked : Int
  comments : Int
  description : Bool
  due : Option String
  dueComplete : Bool
  subscribed : Bool
  votes : Int
  deriving DecidableEq, Repr

/-- Go `api.Card`.  `pos` (`float64`) is kept as the raw JSON number
lexeme; `*string` fields are `Option String`. -/
structure Card where
  id : String
  idShort : Int
  name : String
  desc : String
  closed : Bool
  idBoard : String
  idList : String
  idMembers : List String
  idLabels : List String
  labels : List Label
  due : Option String
  dueComplete : Bool
  start : Option String
  pos : String
  shortLink : String
  shortUrl : String
  url : String
  subscribed : Bool
  dateLastActivity : String
  badges : CardBadges
  deriving DecidableEq, Repr

/-- UTF-8 decoding of a byte sequence for display, one replacement rune
per malformed byte (how a terminal shows the raw bytes Go writes).
Exact whenever the bytes are valid UTF-8, which holds for every date
cell a real response produces. -/
def utf8DecodeAux : Nat → List Nat → List Char
  | 0, _ => []
  | _, [] => []
  | fuel + 1, b :: rest =>
    if b < 0x80 then Char.ofNat b :: utf8DecodeAux fuel rest
    else if 0xC2 ≤ b ∧ b ≤ 0xDF then
      match rest with
      | b2 :: rest2 =>
        if 0x80 ≤ b2 ∧ b2 < 0xC0 then
          Char.ofNat ((b - 0xC0) * 0x40 + (b2 - 0x80)) :: utf8DecodeAux fuel rest2
        else Char.ofNat 0xFFFD :: utf8DecodeAux fuel rest
      | [] => [Char.ofNat 0xFFFD]
    else if 0xE0 ≤ b ∧ b ≤ 0xEF then
      match rest with
      | b2 :: b3 :: rest3 =>
        if 0x80 ≤ b2 ∧ b2 < 0xC0 ∧ 0x80 ≤ b3 ∧ b3 < 0xC0 then
          Char.ofNat (((b - 0xE0) * 0x40 + (b2 - 0x80)) * 0x40 + (b3 - 0x80))
            :: utf8DecodeAux fuel rest3
        else Char.ofNat 0xFFFD :: utf8DecodeAux fuel rest
      | _ => [Char.ofNat 0xFFFD]
    else if 0xF0 ≤ b ∧ b ≤ 0xF4 then
      match rest with
      | b2 :: b3 :: b4 :: rest4 =>
        if 0x80 ≤ b2 ∧ b2 < 0xC0 ∧ 0x80 ≤ b3 ∧ b3 < 0xC0 ∧ 0x80 ≤ b4 ∧ b4 < 0xC0 then
          Char.ofNat ((((b - 0xF0) * 0x40 + (b2 - 0x80)) * 0x40 + (b3 - 0x80)) * 0x40
              + (b4 - 0x80)) :: utf8DecodeAux fuel rest4
        else Char.ofNat 0xFFFD :: utf8DecodeAux fuel rest
      | _ => [Char.ofNat 0xFFFD]
    else Char.ofNat 0xFFFD :: utf8DecodeAux fuel rest

/-- Display form of a byte sequence. -/
def utf8Display (bs : List Nat) : String :=
  String.mk (utf8DecodeAux (bs.length + 1) bs)

/-- Go `cmd.printAPICardsTable`: the "No cards found." single line for
an empty slice, else the five-column table.  The due cell evaluates
`FormatDate`, whose panic (`none`, claim C5) propagates to the whole
render. -/
def printAPICardsTable (cards : List Card) : Option String :=
  if cards.length = 0 then some ("No cards found." ++ "\n")
  else do
    let rows ← cards.mapM (fun c => do
      let labelNames := c.labels.map (fun l => if l.name ≠ "" then l.name else l.color)
      let dueBytes ← FormatDate c.due
      pure [c.id, toString c.idShort, truncateT c.name 44,
        utf8Display dueBytes, FormatLabels labelNames])
    pure (PrintTable ["ID", "#", "NAME", "DUE", "LABELS"] rows)

/-- The `RunE` body of `cmd.listsListCmd` given the parsed flags and the
wire outcome of the one `GET /boards/<id>/lists` call: the required-flag
check, the fetch, then JSON or display rendering.  The first component
is the text written to stdout, the second the error returned to cobra. -/
def listsListRun (c : Client) (boardID filter : String) (wire : HTTPOutcome)
    (interactive json pretty : Bool) : String × Option GoError :=
  if boardID = "" then ("", some (.errorString "--board is required"))
  else
    match GetBoardLists c boardID filter wire with
    | .error e => ("", some e)
    | .ok lists =>
      if IsJSON interactive json pretty then
        (PrintJSON (Json.arr (lists.map (fun l =>
          Json.obj [("id", .str l.id), ("name", .str l.name),
            ("closed", .bool l.closed), ("idBoard", .str l.idBoard),
            ("pos", .num l.pos), ("subscribed", .bool l.subscribed)])))
          (IsPretty interactive json pretty), none)
      else if lists.length = 0 then
        ("No lists found." ++ "\n", none)
      else
        (PrintTable ["ID", "NAME", "CLOSED"]
          (lists.map (fun l => [l.id, truncateT l.name 50, FormatBool l.closed])), none)

/-- C7: a list operation returning zero items (the remote returns the
empty JSON array) renders exactly one human-readable line containing
"No lists found." in Display mode, renders the empty structured
sequence `[]` (with no error) in Structured mode, and the shared cards
table prints the single "No cards found." line. -/
theorem c7_zero_items (c : Client) (boardID filter : String)
    (i j p : Bool) (hb : boardID ≠ "") :
    (IsJSON i j p = true →
      listsListRun c boardID filter (.response 200 "[]") i j p = ("[]" ++ "\n", none))
    ∧ (IsJSON i j p = false →
      listsListRun c boardID filter (.response 200 "[]") i j p
        = ("No lists found." ++ "\n", none))
    ∧ (("No lists found." ++ "\n").data.count '\n' = 1)
    ∧ printAPICardsTable [] = some ("No cards found." ++ "\n") := by
  have hu : unmarshalTrelloLists "[]" = .ok [] := rfl
  have hgl : GetBoardLists c boardID filter (.response 200 "[]")
      = .ok ([] : List TrelloList) := by
    unfold GetBoardLists
    simp [clientGet, doRequest, hu]
  refine ⟨?_, ?_, by decide, by decide⟩
  · intro hj
    unfold listsListRun
    rw [if_neg hb, hgl]
    rw [hj]
    cases hp : IsPretty i j p <;> simp [hp] <;> rfl
  · intro hj
    unfold listsListRun
    rw [if_neg hb, hgl]
    rw [hj]
    simp

/-- Witness for C7 at concrete flags (structured and display). -/
theorem c7_witness :
    listsListRun ⟨"k", "t"⟩ "b" "" (.response 200 "[]") true true false
      = ("[]" ++ "\n", none)
    ∧ listsListRun ⟨"k", "t"⟩ "b" "" (.response 200 "[]") true false false
      = ("No lists found." ++ "\n", none) := by
  have h1 := c7_zero_items ⟨"k", "t"⟩ "b" "" true true false (by decide)
  have h2 := c7_zero_items ⟨"k", "t"⟩ "b" "" true false false (by decide)
  exact ⟨h1.1 (by decide), h2.2.1 (by decide)⟩

/-! Top level: `cmd/root.go` `Execute` and the boards-get command. -/

/-- Marshalled form of `BoardPrefs` (fields in declaration order, as
`encoding/json` emits them). -/
def BoardPrefs.toJson (p : BoardPrefs) : Json :=
  .obj [("permissionLevel", .str p.permissionLevel), ("voting", .str p.voting),
    ("comments", .str p.comments), ("background", .str p.background),
    ("backgroundColor", .str p.backgroundColor),
    ("backgroundImage", .str p.backgroundImage), ("selfJoin", .bool p.selfJoin),
    ("cardCovers", .bool p.cardCovers), ("isTemplate", .bool p.isTemplate),
    ("cardAging", .str p.cardAging)]

/-- Marshalled form of `LabelNames`. -/
def LabelNames.toJson (n : LabelNames) : Json :=
  .obj [("black", .str n.black), ("blue", .str n.blue), ("green", .str n.green),
    ("lime", .str n.lime), ("orange", .str n.orange), ("pink", .str n.pink),
    ("purple", .str n.purple), ("red", .str n.red), ("sky", .str n.sky),
    ("yellow", .str n.yellow)]

/-- Marshalled form of `Board`. -/
def Board.toJson (b : Board) : Json :=
  .obj [("id", .str b.id), ("name", .str b.name), ("desc", .str b.desc),
    ("closed", .bool b.closed), ("idOrganization", .str b.idOrganization),
    ("url", .str b.url), ("shortUrl", .str b.shortUrl),
    ("shortLink", .str b.shortLink),
    ("dateLastActivity", .str b.dateLastActivity),
    ("prefs", b.prefs.toJson), ("labelNames", b.labelNames.toJson)]

/-- The `RunE` body of `cmd.boardsGetCmd`: fetch the board, then JSON or
key/value rendering.  First component: stdout text; second: the error
returned to cobra. -/
def boardsGetRun (c : Client) (id : String) (wire : HTTPOutcome)
    (interactive json pretty : Bool) : String × Option GoError :=
  match GetBoard c id [] wire with
  | .error e => ("", some e)
  | .ok board =>
    if IsJSON interactive json pretty then
      (PrintJSON board.toJson (IsPretty interactive json pretty), none)
    else
      (PrintKeyValue [
        ["ID", board.id],
        ["Name", board.name],
        ["Description", truncateT board.desc 80],
        ["Workspace", board.idOrganization],
        ["URL", board.shortUrl],
        ["Last Activity", FormatTime board.dateLastActivity],
        ["Closed", FormatBool board.closed],
        ["Permission", board.prefs.permissionLevel]], none)

/-- The observable outcome of one process invocation. -/
structure ProcResult where
  stdout : String
  stderr : String
  exitCode : Nat
  deriving DecidableEq, Repr

/-- The top level of `cmd/root.go`: `Execute` runs the command and calls
`os.Exit(1)` when `rootCmd.Execute()` reports an error.  The cobra
framework (an external collaborator, `SilenceUsage` set and
`SilenceErrors` not) prints a returned `RunE` error to the error stream
as `Error: <err.Error()>` followed by a newline, exactly the error
rendering the spec prescribes; on success the process ends with status
0 and an empty error stream. -/
def topLevel (run : String × Option GoError) : ProcResult :=
  match run.2 with
  | none => ⟨run.1, "", 0⟩
  | some e => ⟨run.1, "Error: " ++ e.errorMessage ++ "\n", 1⟩

/-- C8: a 404 response surfaces as exactly one
`Error: HTTP 404: <body>` line on the error stream, nothing on stdout,
and exit status 1 — for any flag combination.  (The single-line claim
reads the body as line-free, which every real Trello error body is.) -/
theorem c8_http404_top_level (c : Client) (id body : String)
    (i j p : Bool) (hnl : body.data.count '\n' = 0) :
    (topLevel (boardsGetRun c id (.response 404 body) i j p)).stdout = ""
    ∧ (topLevel (boardsGetRun c id (.response 404 body) i j p)).exitCode = 1
    ∧ (topLevel (boardsGetRun c id (.response 404 body) i j p)).stderr
        = "Error: " ++ ("HTTP 404: " ++ body) ++ "\n"
    ∧ ((topLevel (boardsGetRun c id (.response 404 body) i j p)).stderr).data.count '\n'
        = 1 := by
  have hgb : GetBoard c id [] (.response 404 body)
      = .error (.trelloError 404 ("HTTP " ++ toString 404 ++ ": " ++ body)) := by
    unfold GetBoard
    simp [clientGet, doRequest]
  have hrun : boardsGetRun c id (.response 404 body) i j p
      = ("", some (.trelloError 404 ("HTTP " ++ toString 404 ++ ": " ++ body))) := by
    unfold boardsGetRun
    rw [hgb]
  have hstderr : (topLevel (boardsGetRun c id (.response 404 body) i j p)).stderr
      = "Error: " ++ ("HTTP 404: " ++ body) ++ "\n" := by
    rw [hrun]
    rfl
  refine ⟨by rw [hrun]; rfl, by rw [hrun]; rfl, hstderr, ?_⟩
  rw [hstderr]
  have hd : ("Error: " ++ ("HTTP 404: " ++ body) ++ "\n").data
      = "Error: ".data ++ ("HTTP 404: ".data ++ body.data) ++ "\n".data := by
    rw [String.data_append, String.data_append, String.data_append]
  rw [hd]
  rw [List.count_append, List.count_append, List.count_append, hnl]
  decide

/-- Witness for C8 at a concrete 404. -/
theorem c8_witness :
    (topLevel (boardsGetRun ⟨"k", "t"⟩ "b1" (.response 404 "not found")
        false false false)).stdout = ""
    ∧ (topLevel (boardsGetRun ⟨"k", "t"⟩ "b1" (.response 404 "not found")
        false false false)).exitCode = 1
    ∧ (topLevel (boardsGetRun ⟨"k", "t"⟩ "b1" (.response 404 "not found")
        false false false)).stderr
      = "Error: " ++ ("HTTP 404: " ++ "not found") ++ "\n" := by
  have h := c8_http404_top_level ⟨"k", "t"⟩ "b1" "not found" false false false
    (by decide)
  exact ⟨h.1, h.2.1, h.2.2.1⟩

end TrelloCLI
